import Mathlib

/-!
Verification development for the tick-ingestion-and-reconciliation pipeline
(`business.py`, `validators.py`, `strategy_api/strategy_rules.py`,
`strategy_api/ai_module.py`, `strategy_api/app.py`).

Modelling conventions:
* Python numbers (ints and floats) are modelled as rationals `ℚ`.
* Python `round(x, 2)` (round-half-to-even to two decimal places) is
  modelled as `round2` below.
* JSON/duck-typed values are modelled by the inductive `J`; a raised Python
  exception is modelled as `Except.error`/`Option.none` at the point where
  the source would raise.
* File I/O is modelled by passing the file contents (positions list, log
  list) in and out explicitly; wall-clock timestamps are omitted from the
  records since no verified property mentions them.
-/

/-- Round-half-to-even of a rational to an integer (Python 3 `round` tie
behaviour). -/
def roundHalfEven (x : ℚ) : ℤ :=
  let f : ℤ := ⌊x⌋
  let r : ℚ := x - f
  if r < 1/2 then f
  else if 1/2 < r then f + 1
  else if f % 2 = 0 then f else f + 1

/-- Python `round(x, 2)`: round to two decimal places, ties to even. -/
def round2 (x : ℚ) : ℚ :=
  (roundHalfEven (x * 100) : ℚ) / 100

namespace Business

/-- A stored position, as the dicts written to `data/current_positions.json`
by `business.update_current_positions` (field order as inserted there). -/
structure Position where
  ticker : String
  quantity : ℚ
  purchase_price : ℚ
  current_price : ℚ
  unrealized_pnl : ℚ
deriving DecidableEq, Repr

/-- The per-ticker tick dict consumed by `update_current_positions` and
`execute_trading_strategy` (`tick_data` with keys `ticker`, `price`,
`quantity`, `purchase_price`). -/
structure TickData where
  ticker : String
  price : ℚ
  quantity : ℚ
  purchase_price : ℚ
deriving DecidableEq, Repr

/-- The loop of `update_current_positions` (business.py lines 100-112):
walk the stored positions; at the first position whose ticker matches,
record its prior `current_price`, overwrite `current_price` with the new
price and recompute `unrealized_pnl`; `none` when no position matches. -/
def upsertGo (t : TickData) : List Position → Option (List Position × ℚ)
  | [] => none
  | p :: rest =>
    if p.ticker = t.ticker then
      some ({ p with
                current_price := t.price,
                unrealized_pnl := round2 ((t.price - p.purchase_price) * p.quantity) } :: rest,
            p.current_price)
    else
      (upsertGo t rest).map (fun r => (p :: r.1, r.2))

/-- `business.update_current_positions` (lines 78-127): update the matched
position, or append a fresh one with `unrealized_pnl = 0`; returns the new
ledger together with `old_price`.  On the not-found branch the source sets
`old_price = new_price` (the new price itself), not `None`. -/
def update_current_positions (t : TickData) (positions : List Position) :
    List Position × ℚ :=
  match upsertGo t positions with
  | some res => res
  | none =>
      (positions ++ [⟨t.ticker, t.quantity, t.purchase_price, t.price, 0⟩], t.price)

/-- One record of `data/trading_history.json` as appended by
`business.log_transaction`; the wall-clock `date` field is omitted, and
`quantity` is `none` exactly when the source omits the key. -/
structure LogRecord where
  ticker : String
  action : String
  price : ℚ
  note : String
  quantity : Option ℚ
deriving DecidableEq, Repr

/-- `business.log_transaction` (lines 171-197): append one record to the
history; the `quantity` key is added only when a quantity was passed. -/
def log_transaction (action ticker : String) (price : ℚ) (note : String)
    (quantity : Option ℚ) (history : List LogRecord) : List LogRecord :=
  history ++ [⟨ticker, action, round2 price, note, quantity⟩]

/-- `business.execute_trading_strategy` (lines 129-169): `previous_price`
is `none` for Python `None`.  Returns the action string and the new history
file contents. -/
def execute_trading_strategy (t : TickData) (previous_price : Option ℚ)
    (history : List LogRecord) : String × List LogRecord :=
  match previous_price with
  | none => ("INITIAL", history)
  | some prev =>
    if prev < t.price then
      ("SELL",
       log_transaction "SELL" t.ticker t.price "Price increased - sell signal"
         (some t.quantity) history)
    else
      ("STAY",
       log_transaction "TICK_UPDATE" t.ticker t.price "Price decreased - stay"
         none history)

/-- A position dict of the inbound payload (`Positions` items), as read by
`business.analyze_tick`. -/
structure PayloadPosition where
  ticker : String
  quantity : ℚ
  purchase_price : ℚ
deriving DecidableEq, Repr

/-- A `Market_Summary` item, as read by `business.analyze_tick`. -/
structure SummaryItem where
  ticker : String
  current_price : ℚ
deriving DecidableEq, Repr

/-- The `current_prices` dict comprehension of `analyze_tick` (lines 25-28):
a later summary item for the same ticker overwrites an earlier one, so the
lookup finds the last matching item. -/
def lookupPrice (market_summary : List SummaryItem) (ticker : String) : Option ℚ :=
  (market_summary.reverse.find? (fun i => i.ticker == ticker)).map
    (fun i => i.current_price)

/-- The accumulation loop of `analyze_tick` (lines 31-45), carried out with
explicit accumulators `(unrealized_pnl, positions_evaluated)`. -/
def analyzeLoop (market_summary : List SummaryItem) :
    List PayloadPosition → ℚ × ℕ → ℚ × ℕ
  | [], acc => acc
  | pos :: rest, acc =>
    match lookupPrice market_summary pos.ticker with
    | some current_price =>
        analyzeLoop market_summary rest
          (acc.1 + (current_price - pos.purchase_price) * pos.quantity, acc.2 + 1)
    | none => analyzeLoop market_summary rest acc

/-- `business.analyze_tick` (lines 10-55), restricted to the summary dict it
returns: `(unrealized_pnl, positions_evaluated)`.  The `result` field is the
constant `"success"` and `decisions` the constant `[]`. -/
def analyze_tick (positions : List PayloadPosition)
    (market_summary : List SummaryItem) : ℚ × ℕ :=
  analyzeLoop market_summary positions (0, 0)

end Business

namespace StrategyRules

/-- One `market_history` row as consumed by
`strategy_rules.decide_from_history`; `day` (the sort key) is modelled as an
integer. -/
structure HistoryRow where
  ticker : String
  price : ℚ
  day : ℤ
deriving DecidableEq, Repr

/-- Stable insertion of a row into a day-sorted list: the inserted row goes
before the first row whose day is not smaller, matching the stability of
Python `sorted` with `key=lambda r: r["day"]`. -/
def insertByDay (r : HistoryRow) : List HistoryRow → List HistoryRow
  | [] => [r]
  | x :: xs => if x.day < r.day then x :: insertByDay r xs else r :: x :: xs

/-- Stable sort by `day` ascending, modelling
`sorted(history_rows, key=lambda r: r["day"])`. -/
def sortByDay : List HistoryRow → List HistoryRow
  | [] => []
  | x :: xs => insertByDay x (sortByDay xs)

/-- `strategy_rules._sma` (lines 5-8): simple moving average of the last
`window` values; the `float("nan")` result is modelled as `none`. -/
def _sma (values : List ℚ) (window : ℕ) : Option ℚ :=
  if window = 0 ∨ values.length < window then none
  else some ((values.drop (values.length - window)).sum / (window : ℚ))

/-- `strategy_rules.decide_from_history` (lines 10-26).  The two NaN
comparisons `short != short or long != long` become the `none` cases of the
match. -/
def decide_from_history (_ticker : String) (history_rows : List HistoryRow) :
    String :=
  let prices := (sortByDay history_rows).map (fun r => r.price)
  if prices.length < 3 then "HOLD"
  else
    match _sma prices 3,
          (if 5 ≤ prices.length then _sma prices 5 else _sma prices prices.length) with
    | some short, some long =>
        if long < short then "BUY"
        else if short < long then "SELL"
        else "HOLD"
    | _, _ => "HOLD"

end StrategyRules

/-- A Python/JSON value, used where the source works with duck-typed
payloads.  `i`/`f` keep Python ints and floats apart (both are modelled
over `ℚ`), since `isinstance` checks distinguish them. -/
inductive J where
  | s : String → J
  | i : ℤ → J
  | f : ℚ → J
  | b : Bool → J
  | null : J
  | arr : List J → J
  | obj : List (String × J) → J

/-- `dict.get(k)` / `dict[k]` on a JSON object: `none` when the receiver is
not a dict or the key is absent.  A duplicate key keeps the last binding,
as a Python dict built left to right would. -/
def jget : J → String → Option J
  | J.obj fs, k => (fs.reverse.find? (fun e => e.1 == k)).map (fun e => e.2)
  | _, _ => none

/-- Python `k in d` for a dict `d` (`False` on non-dicts, which the source
never reaches). -/
def hasKey (v : J) (k : String) : Bool :=
  match v with
  | J.obj fs => fs.any (fun e => e.1 == k)
  | _ => false

/-- Python truthiness of a JSON value (`if not x:`). -/
def truthy : J → Bool
  | J.null => false
  | J.b v => v
  | J.i n => n != 0
  | J.f q => q != 0
  | J.s v => v != ""
  | J.arr xs => !xs.isEmpty
  | J.obj fs => !fs.isEmpty

/-- Truthiness of `d.get(k)`: Python `None` (absent key) is falsy. -/
def truthyO : Option J → Bool
  | none => false
  | some v => truthy v

/-- Parse a plain decimal literal (optional sign, digits, optional
fractional part), the fragment of Python `float(str)` the payloads
exercise; other accepted spellings (exponents, `inf`, `nan`, underscores)
are modelled as failures. -/
def parseDecimal (s : String) : Option ℚ :=
  let cs := s.trim.toList
  let signAndRest : ℚ × List Char :=
    match cs with
    | '-' :: r => (-1, r)
    | '+' :: r => (1, r)
    | r => (1, r)
  let sign := signAndRest.1
  let rest := signAndRest.2
  let intPart := rest.takeWhile Char.isDigit
  let tail := rest.dropWhile Char.isDigit
  let digitsVal : List Char → ℕ :=
    fun ds => ds.foldl (fun acc c => acc * 10 + (c.toNat - 48)) 0
  match tail with
  | [] =>
      if intPart.isEmpty then none
      else some (sign * (digitsVal intPart : ℚ))
  | '.' :: fracPart =>
      if fracPart.all Char.isDigit ∧ (¬ intPart.isEmpty ∨ ¬ fracPart.isEmpty) then
        some (sign * ((digitsVal intPart : ℚ) +
          (digitsVal fracPart : ℚ) / ((10 : ℚ) ^ fracPart.length)))
      else none
  | _ => none

/-- Python `float(x)` coercion: succeeds on ints, floats, bools and
decimal-literal strings; `none` models the raised
`ValueError`/`TypeError`. -/
def pyFloat : J → Option ℚ
  | J.i n => some (n : ℚ)
  | J.f q => some q
  | J.b v => some (if v then 1 else 0)
  | J.s v => parseDecimal v
  | _ => none

/-- Python `int(x)` coercion (used for the `day` field check): truncates a
float toward zero, parses integer-literal strings; `none` models the raised
error. -/
def pyInt : J → Option ℤ
  | J.i n => some n
  | J.b v => some (if v then 1 else 0)
  | J.f q => some (Int.tdiv q.num (q.den : ℤ))
  | J.s v => v.trim.toInt?
  | _ => none

/-- Python `==` restricted to hashable scalars (the only values the source
uses as dict keys): numeric values compare by value across int/float/bool,
everything else structurally.  Non-scalars yield `false`; the call sites
reject them before comparing. -/
def pyEq (a b : J) : Bool :=
  match a, b with
  | J.s x, J.s y => x == y
  | J.null, J.null => true
  | J.i x, J.i y => x == y
  | J.i x, J.f y => (x : ℚ) == y
  | J.i x, J.b y => (x : ℚ) == (if y then 1 else 0)
  | J.f x, J.i y => x == (y : ℚ)
  | J.f x, J.f y => x == y
  | J.f x, J.b y => x == (if y then (1 : ℚ) else 0)
  | J.b x, J.i y => (if x then (1 : ℚ) else 0) == (y : ℚ)
  | J.b x, J.f y => (if x then (1 : ℚ) else 0) == y
  | J.b x, J.b y => x == y
  | _, _ => false

/-- Hashability of a value used as a dict key or in a `k in dict` test. -/
def isScalar : J → Bool
  | J.s _ => true
  | J.i _ => true
  | J.f _ => true
  | J.b _ => true
  | J.null => true
  | _ => false

namespace Validators

/-- The per-item loop over `Positions` (validators.py lines 52-69), with
the running index for the error messages. -/
def validatePositions : List J → ℕ → Option String
  | [], _ => none
  | pos :: rest, idx =>
    match pos with
    | J.obj _ =>
      if ¬ hasKey pos "ticker" then
        some ("Position at index " ++ toString idx ++ " missing field: ticker")
      else if ¬ hasKey pos "quantity" then
        some ("Position at index " ++ toString idx ++ " missing field: quantity")
      else if ¬ hasKey pos "purchase_price" then
        some ("Position at index " ++ toString idx ++ " missing field: purchase_price")
      else
        match jget pos "ticker" with
        | some (J.s _) =>
          if (((jget pos "quantity").bind pyFloat).isNone ∨
              ((jget pos "purchase_price").bind pyFloat).isNone) then
            some ("Position at index " ++ toString idx ++
              ": quantity and purchase_price must be numeric")
          else validatePositions rest (idx + 1)
        | _ => some ("Position at index " ++ toString idx ++ ": ticker must be a string")
    | _ => some ("Position at index " ++ toString idx ++ " must be an object")

/-- The per-item loop over `Market_Summary` (validators.py lines 78-91). -/
def validateSummary : List J → ℕ → Option String
  | [], _ => none
  | item :: rest, idx =>
    match item with
    | J.obj _ =>
      if ¬ (hasKey item "ticker" ∧ hasKey item "current_price") then
        some ("Market Summary item at index " ++ toString idx ++
          " missing required fields")
      else
        match jget item "ticker" with
        | some (J.s _) =>
          if ((jget item "current_price").bind pyFloat).isNone then
            some ("Market Summary at index " ++ toString idx ++
              ": current_price must be numeric")
          else validateSummary rest (idx + 1)
        | _ => some ("Market Summary at index " ++ toString idx ++
            ": ticker must be a string")
    | _ => some ("Market Summary item at index " ++ toString idx ++ " must be an object")

/-- The per-item loop over `market_history` (validators.py lines 99-115). -/
def validateHistory : List J → ℕ → Option String
  | [], _ => none
  | item :: rest, idx =>
    match item with
    | J.obj _ =>
      if ¬ hasKey item "ticker" then
        some ("market_history item at index " ++ toString idx ++ " missing field: ticker")
      else if ¬ hasKey item "price" then
        some ("market_history item at index " ++ toString idx ++ " missing field: price")
      else if ¬ hasKey item "day" then
        some ("market_history item at index " ++ toString idx ++ " missing field: day")
      else
        match jget item "ticker" with
        | some (J.s _) =>
          if (((jget item "price").bind pyFloat).isNone ∨
              ((jget item "day").bind pyInt).isNone) then
            some ("market_history at index " ++ toString idx ++
              ": price must be numeric and day must be an integer")
          else validateHistory rest (idx + 1)
        | _ => some ("market_history at index " ++ toString idx ++
            ": ticker must be a string")
    | _ => some ("market_history item at index " ++ toString idx ++ " must be an object")

/-- `validators.validate_tick_payload` (lines 26-117): short-circuiting
schema check returning `(is_valid, error_message)`. -/
def validate_tick_payload (payload : J) : Bool × String :=
  match payload with
  | J.obj _ =>
    if ¬ hasKey payload "Positions" then
      (false, "Missing required field: Positions")
    else if ¬ hasKey payload "Market_Summary" then
      (false, "Missing required field: Market_Summary")
    else if ¬ hasKey payload "market_history" then
      (false, "Missing required field: market_history")
    else
      match (jget payload "Positions").getD J.null with
      | J.arr ps =>
        if ps.isEmpty then (false, "Positions must be a non-empty list")
        else
          match validatePositions ps 0 with
          | some err => (false, err)
          | none =>
            match (jget payload "Market_Summary").getD J.null with
            | J.arr ms =>
              if ms.isEmpty then (false, "Market Summary must be a non-empty list")
              else
                match validateSummary ms 0 with
                | some err => (false, err)
                | none =>
                  match (jget payload "market_history").getD J.null with
                  | J.arr mh =>
                    match validateHistory mh 0 with
                    | some err => (false, err)
                    | none => (true, "")
                  | _ => (false, "market_history must be a list")
            | _ => (false, "Market Summary must be a list")
      | _ => (false, "Positions must be a list")
  | _ => (false, "Payload must be a JSON object")

end Validators

namespace StrategyApi

/-- `ai_module.process_tick_with_ai` (lines 191-211).  The external calls
are passed in as parameters: `recommendations` is what
`get_chatgpt_recommendation` produced after its own error handling (a
list, `[]` on any failure), and `mothershipResult` is what
`post_trade_to_mothership` would return when actually called (its
`requests` failure path already yields a dict with a single `error` key).
An empty recommendation list short-circuits: the mothership is not called
and an error dict is returned in its place. -/
def process_tick_with_ai (recommendations : List J) (mothershipResult : J) :
    List J × J :=
  if recommendations.isEmpty then
    ([], J.obj [("error", J.s "No recommendations received from AI")])
  else
    (recommendations, mothershipResult)

/-- Insert/overwrite one key of the `current_prices` dict (app.py lines
67-68): an existing key (Python `==`) keeps its place with the new value,
a new key is appended. -/
def priceMapSet (m : List (J × ℚ)) (k : J) (v : ℚ) : List (J × ℚ) :=
  if m.any (fun e => pyEq e.1 k) then
    m.map (fun e => if pyEq e.1 k then (e.1, v) else e)
  else m ++ [(k, v)]

/-- The dict comprehension of `app.calculate_unrealized_pnl` (lines 67-68):
builds `ticker -> float(current_price)`; `Except.error` models the
exception raised on a non-list, a non-dict item, a missing key, a
non-coercible price or an unhashable ticker. -/
def buildPriceMap : J → Except Unit (List (J × ℚ))
  | J.arr items =>
    items.foldlM
      (fun m item =>
        match item with
        | J.obj _ =>
          match jget item "ticker", (jget item "current_price").bind pyFloat with
          | some t, some cp =>
            if isScalar t then Except.ok (priceMapSet m t cp) else Except.error ()
          | _, _ => Except.error ()
        | _ => Except.error ())
      []
  | _ => Except.error ()

/-- `app.calculate_unrealized_pnl` (lines 64-81) over raw JSON positions:
sums `(current_price - purchase_price) * quantity` over the positions whose
ticker has a quoted price; `Except.error` models a raised exception (which
the `tick` handler turns into a 500 response). -/
def calculate_unrealized_pnl_j (positions market_summary : J) :
    Except Unit ℚ :=
  (buildPriceMap market_summary).bind (fun m =>
    match positions with
    | J.arr ps =>
      ps.foldlM
        (fun total pos =>
          match pos with
          | J.obj _ =>
            match jget pos "ticker", (jget pos "quantity").bind pyFloat,
                  (jget pos "purchase_price").bind pyFloat with
            | some t, some quantity, some purchase_price =>
              if isScalar t then
                match m.find? (fun e => pyEq e.1 t) with
                | some e => Except.ok (total + (e.2 - purchase_price) * quantity)
                | none => Except.ok total
              else Except.error ()
            | _, _, _ => Except.error ()
          | _ => Except.error ())
        0
    | _ => Except.error ())

/-- Day extraction of `app.tick` (lines 135-140), reached only after the
`market_history` truthiness guard: take `market_history[-1].get('day')`
(`none` models the `datetime.now()` default); `Except.error` models the
exception raised when the value is not a list or its last item not a
dict. -/
def extractDay : J → Except Unit (Option J)
  | J.arr hs =>
    match hs.getLast? with
    | some (J.obj fs) => Except.ok (jget (J.obj fs) "day")
    | some _ => Except.error ()
    | none => Except.ok none
  | _ => Except.error ()

/-- One entry of `trading_log.json` as appended by `app.tick` (lines
174-183); the wall-clock `timestamp` field is omitted.  `day` is `none`
when the source would store `datetime.now()`. -/
structure AppLogEntry where
  trade_id : String
  day : Option J
  recommendations : List J
  positions_before : J
  positions_after : J
  unrealized_pnl : ℚ
  mothership_response : J

/-- The HTTP response produced by `app.tick`: either a failure with status
code and error message, or the 200 success body.  The raw `str(e)` text of
an unexpected exception is abstracted to `"internal error"`. -/
inductive TickResponse where
  | failure : ℕ → String → TickResponse
  | success : ℚ → ℕ → Option J → List J → TickResponse

/-- The observable outcome of one `app.tick` call: the response, the
successive arguments of `save_positions` calls (writes to
`positions.json`), and the new contents of the trading log. -/
structure TickResult where
  response : TickResponse
  positionsSaves : List J
  newLog : List AppLogEntry

/-- `app.tick` (lines 98-200), starting after JSON body parsing.
`tick_data` is the parsed body; `aiRecs` and `mothershipResult` stand for
the two external calls (see `process_tick_with_ai`); `log0` is the prior
contents of `trading_log.json`. -/
def tick (tick_data : J) (trade_id : String) (aiRecs : List J)
    (mothershipResult : J) (log0 : List AppLogEntry) : TickResult :=
  if truthy tick_data = false then
    ⟨TickResponse.failure 400 "No data provided", [], log0⟩
  else
    match tick_data with
    | J.obj _ =>
      let positions := jget tick_data "Positions"
      let market_summary := jget tick_data "Market_Summary"
      let market_history := jget tick_data "market_history"
      if truthyO positions = false then
        ⟨TickResponse.failure 400 "Missing Positions field", [], log0⟩
      else if truthyO market_summary = false then
        ⟨TickResponse.failure 400 "Missing Market_Summary field", [], log0⟩
      else if truthyO market_history = false then
        ⟨TickResponse.failure 400 "Missing market_history field", [], log0⟩
      else
        match extractDay (market_history.getD J.null) with
        | Except.error _ => ⟨TickResponse.failure 500 "internal error", [], log0⟩
        | Except.ok day =>
          let posVal := positions.getD J.null
          let recAndRes := process_tick_with_ai aiRecs mothershipResult
          let recommendations := recAndRes.1
          let mothership_response := recAndRes.2
          let updAndSaves : J × List J :=
            if hasKey mothership_response "error" then (posVal, [posVal])
            else if hasKey mothership_response "Positions" then
              ((jget mothership_response "Positions").getD J.null,
               [posVal, (jget mothership_response "Positions").getD J.null])
            else (posVal, [posVal])
          let updated_positions := updAndSaves.1
          let saves := updAndSaves.2
          match calculate_unrealized_pnl_j posVal (market_summary.getD J.null) with
          | Except.error _ => ⟨TickResponse.failure 500 "internal error", saves, log0⟩
          | Except.ok unrealized_pnl =>
            let entry : AppLogEntry :=
              ⟨trade_id, day, recommendations, posVal, updated_positions,
               unrealized_pnl, mothership_response⟩
            match posVal with
            | J.arr ps =>
              ⟨TickResponse.success unrealized_pnl ps.length day recommendations,
               saves, log0 ++ [entry]⟩
            | _ => ⟨TickResponse.failure 500 "internal error", saves, log0 ++ [entry]⟩
    | _ => ⟨TickResponse.failure 500 "internal error", [], log0⟩

end StrategyApi

namespace Business

/-- A stored position's `unrealized_pnl` is either the `0.0` written at
insertion or the rounded product recomputed on a price update. -/
def PnlOk (p : Position) : Prop :=
  p.unrealized_pnl = 0 ∨
  p.unrealized_pnl = round2 ((p.current_price - p.purchase_price) * p.quantity)

/-- Ledger invariant: at most one position per ticker, and every stored
`unrealized_pnl` is the inserted `0` or the recomputed rounded value. -/
def LedgerInv (L : List Position) : Prop :=
  (L.map Position.ticker).Nodup ∧ ∀ p ∈ L, PnlOk p

/-- Ledger states reachable from the empty file through the two ledger
operations: `update_current_positions` (upsert) and a bulk replace whose
supplied snapshot itself satisfies the invariant. -/
inductive ReachableLedger : List Position → Prop
  | empty : ReachableLedger []
  | upsert (t : TickData) {L : List Position} :
      ReachableLedger L → ReachableLedger (update_current_positions t L).1
  | bulkReplace (P : List Position) {L : List Position} :
      LedgerInv P → ReachableLedger L → ReachableLedger P

end Business

namespace StrategyRules

/-- The moving-average decision exactly as §4.4 of the spec words it, over
the day-ordered price list: HOLD below 3 points; otherwise compare the SMA
of the last 3 prices with the SMA of the last 5 (or of all prices when
fewer than 5 exist). -/
def specMovingAverageDecision (prices : List ℚ) : String :=
  if prices.length < 3 then "HOLD"
  else
    let short := (prices.drop (prices.length - 3)).sum / 3
    let long :=
      if 5 ≤ prices.length then (prices.drop (prices.length - 5)).sum / 5
      else prices.sum / (prices.length : ℚ)
    if short > long then "BUY"
    else if short < long then "SELL"
    else "HOLD"

/-- A five-day strictly rising history, prices 10..14. -/
def risingHistory : List HistoryRow :=
  [⟨"T", 10, 1⟩, ⟨"T", 11, 2⟩, ⟨"T", 12, 3⟩, ⟨"T", 13, 4⟩, ⟨"T", 14, 5⟩]

/-- A five-day strictly falling history, prices 14..10. -/
def fallingHistory : List HistoryRow :=
  [⟨"T", 14, 1⟩, ⟨"T", 13, 2⟩, ⟨"T", 12, 3⟩, ⟨"T", 11, 4⟩, ⟨"T", 10, 5⟩]

/-- A two-point history. -/
def shortHistory : List HistoryRow := [⟨"T", 10, 1⟩, ⟨"T", 11, 2⟩]

end StrategyRules

/-- A well-formed inbound `Positions` item used as a concrete test input. -/
def exPos : J :=
  J.obj [("ticker", J.s "A"), ("quantity", J.i 10), ("purchase_price", J.f 5)]

/-- A well-formed `Market_Summary` item used as a concrete test input. -/
def exSum : J := J.obj [("ticker", J.s "A"), ("current_price", J.f 8)]

/-- A well-formed `market_history` item used as a concrete test input. -/
def exHist : J :=
  J.obj [("ticker", J.s "A"), ("price", J.f 8), ("day", J.i 1)]

/-- A payload with valid non-empty `Positions` and `Market_Summary` and an
empty `market_history` list. -/
def exPayloadEmptyHistory : J :=
  J.obj [("Positions", J.arr [exPos]), ("Market_Summary", J.arr [exSum]),
         ("market_history", J.arr [])]

/-- A fully valid payload with a one-item `market_history`. -/
def exPayload : J :=
  J.obj [("Positions", J.arr [exPos]), ("Market_Summary", J.arr [exSum]),
         ("market_history", J.arr [exHist])]

open Business StrategyRules StrategyApi Validators

theorem roundHalfEven_intCast (n : ℤ) : roundHalfEven (n : ℚ) = n := by
  unfold roundHalfEven
  simp only [Int.floor_intCast, sub_self]
  norm_num

theorem round2_intCast (n : ℤ) : round2 ((n : ℚ)) = (n : ℚ) := by
  unfold round2
  have h : ((n : ℚ)) * 100 = ((n * 100 : ℤ) : ℚ) := by push_cast; ring
  rw [h, roundHalfEven_intCast]
  push_cast
  ring

theorem round2_eval (n : ℤ) (x : ℚ) (h : x = (n : ℚ)) : round2 x = x := by
  rw [h, round2_intCast]

theorem upsertGo_eq_none_iff (t : TickData) (L : List Position) :
    upsertGo t L = none ↔ ∀ p ∈ L, p.ticker ≠ t.ticker := by
  induction L with
  | nil => simp [upsertGo]
  | cons p rest ih =>
    by_cases h : p.ticker = t.ticker
    · simp [upsertGo, h]
    · simp only [upsertGo, if_neg h, Option.map_eq_none', ih, List.mem_cons]
      constructor
      · intro hall q hq
        rcases hq with hq | hq
        · exact hq ▸ h
        · exact hall q hq
      · intro hall q hq
        exact hall q (Or.inr hq)

theorem upsertGo_some_tickers (t : TickData) (L : List Position)
    (pr : List Position × ℚ) (h : upsertGo t L = some pr) :
    pr.1.map Position.ticker = L.map Position.ticker := by
  induction L generalizing pr with
  | nil => simp [upsertGo] at h
  | cons p rest ih =>
    by_cases hp : p.ticker = t.ticker
    · simp only [upsertGo, if_pos hp, Option.some.injEq] at h
      subst h
      simp
    · simp only [upsertGo, if_neg hp] at h
      rcases hr : upsertGo t rest with _ | r
      · rw [hr] at h; simp at h
      · rw [hr] at h
        simp only [Option.map_some', Option.some.injEq] at h
        subst h
        simp [ih r hr]

theorem upsertGo_pnl (t : TickData) (L : List Position)
    (pr : List Position × ℚ) (h : upsertGo t L = some pr)
    (hL : ∀ p ∈ L, PnlOk p) : ∀ p ∈ pr.1, PnlOk p := by
  induction L generalizing pr with
  | nil => simp [upsertGo] at h
  | cons p rest ih =>
    by_cases hp : p.ticker = t.ticker
    · simp only [upsertGo, if_pos hp, Option.some.injEq] at h
      subst h
      intro q hq
      rcases List.mem_cons.mp hq with hq | hq
      · subst hq
        exact Or.inr rfl
      · exact hL q (List.mem_cons_of_mem _ hq)
    · simp only [upsertGo, if_neg hp] at h
      rcases hr : upsertGo t rest with _ | r
      · rw [hr] at h; simp at h
      · rw [hr] at h
        simp only [Option.map_some', Option.some.injEq] at h
        subst h
        intro q hq
        rcases List.mem_cons.mp hq with hq | hq
        · subst hq
          exact hL q (List.mem_cons_self _ _)
        · exact ih r hr (fun x hx => hL x (List.mem_cons_of_mem _ hx)) q hq

theorem update_preserves_inv (t : TickData) (L : List Position)
    (h : LedgerInv L) : LedgerInv (update_current_positions t L).1 := by
  rcases h with ⟨hnd, hpnl⟩
  rcases hgo : upsertGo t L with _ | pr
  · have hnone := (upsertGo_eq_none_iff t L).mp hgo
    constructor
    · simp only [update_current_positions, hgo, List.map_append, List.map_cons,
        List.map_nil]
      refine List.Nodup.append hnd (List.nodup_singleton _) ?_
      intro x hx hx'
      simp only [List.mem_singleton] at hx'
      subst hx'
      rcases List.mem_map.mp hx with ⟨q, hq, hq'⟩
      exact hnone q hq hq'
    · simp only [update_current_positions, hgo]
      intro p hp
      rcases List.mem_append.mp hp with hp | hp
      · exact hpnl p hp
      · simp only [List.mem_singleton] at hp
        subst hp
        exact Or.inl rfl
  · constructor
    · simp only [update_current_positions, hgo]
      rw [upsertGo_some_tickers t L pr hgo]
      exact hnd
    · simp only [update_current_positions, hgo]
      exact upsertGo_pnl t L pr hgo hpnl

/-- C6 counterexample: a single upsert of ticker `"A"` at price 10 with
quantity 1 and purchase price 5 on the empty ledger stores
`unrealized_pnl = 0`, not `round((10 - 5) * 1, 2) = 5`, so the claimed
invariant fails on a reachable ledger state. -/
theorem c6_counterexample :
    ∃ p ∈ (update_current_positions ⟨"A", 10, 1, 5⟩ []).1,
      p.unrealized_pnl ≠ round2 ((p.current_price - p.purchase_price) * p.quantity) := by
  refine ⟨⟨"A", 1, 5, 10, 0⟩, ?_, ?_⟩
  · simp [update_current_positions, upsertGo]
  · show (0 : ℚ) ≠ round2 ((10 - 5) * 1)
    rw [round2_eval 5 _ (by norm_num)]
    norm_num

/-- C6 (amended): every ledger state reachable from the empty ledger
through upserts and bulk replaces of invariant-satisfying snapshots has at
most one position per ticker, and every stored `unrealized_pnl` is either
the `0` written at insertion or `round((current_price - purchase_price) *
quantity, 2)` as recomputed on a price update. -/
theorem c6_reachable_ledger_invariant (L : List Position)
    (h : ReachableLedger L) : LedgerInv L := by
  induction h with
  | empty => exact ⟨List.nodup_nil, by intro p hp; cases hp⟩
  | upsert t _ ih => exact update_preserves_inv t _ ih
  | bulkReplace P hP _ _ => exact hP

/-- Witness for C6: the invariant holds on the concrete reachable ledger
obtained by one upsert on the empty ledger. -/
theorem c6_reachable_ledger_invariant_witness :
    LedgerInv (update_current_positions ⟨"A", 10, 1, 5⟩ []).1 :=
  c6_reachable_ledger_invariant _
    (ReachableLedger.upsert ⟨"A", 10, 1, 5⟩ ReachableLedger.empty)

/-- C1 (code bug evaluation): on the empty ledger, upserting ticker `"X"`
at price 10 stores `unrealized_pnl = 0` but returns the new price 10
itself — not a value distinct from an actual prior price, and not the
Python `None` its own docstring promises — so the subsequent
`execute_trading_strategy` call on that return value yields `"STAY"` and
appends a `TICK_UPDATE` log entry; only a `None` previous price yields
`"INITIAL"` with no entry. -/
theorem c1_first_sight_evaluation :
    (update_current_positions ⟨"X", 10, 2, 10⟩ [] =
       ([⟨"X", 2, 10, 10, 0⟩], 10)) ∧
    (execute_trading_strategy ⟨"X", 10, 2, 10⟩
        (some (update_current_positions ⟨"X", 10, 2, 10⟩ []).2) [] =
       ("STAY", [⟨"X", "TICK_UPDATE", 10, "Price decreased - stay", none⟩])) ∧
    (execute_trading_strategy ⟨"X", 10, 2, 10⟩ none [] = ("INITIAL", [])) := by
  have e1 : update_current_positions ⟨"X", 10, 2, 10⟩ [] =
      ([⟨"X", 2, 10, 10, 0⟩], 10) := by
    simp [update_current_positions, upsertGo]
  have hr : round2 (10 : ℚ) = 10 := round2_eval 10 _ (by norm_num)
  refine ⟨e1, ?_, rfl⟩
  rw [e1]
  simp only [execute_trading_strategy, log_transaction, hr]
  norm_num

/-- C2 counterexample: upserting `{ticker "A", price 10}` (quantity 1,
purchase price 5) twice in a row on the empty ledger stores
`unrealized_pnl = 0` after the first call but `5` after the second, so the
stored Position is not the same after each of the two calls. -/
theorem c2_counterexample :
    (update_current_positions ⟨"A", 10, 1, 5⟩
        (update_current_positions ⟨"A", 10, 1, 5⟩ []).1).1 ≠
      (update_current_positions ⟨"A", 10, 1, 5⟩ []).1 := by
  have hr : round2 (((10 : ℚ) - 5) * 1) = 5 := by
    rw [round2_eval 5 _ (by norm_num)]; norm_num
  have hr' : round2 ((10 : ℚ) - 5) = 5 := by
    rw [round2_eval 5 _ (by norm_num)]; norm_num
  have e1 : (update_current_positions ⟨"A", 10, 1, 5⟩ []).1 =
      [⟨"A", 1, 5, 10, 0⟩] := by
    simp [update_current_positions, upsertGo]
  have e2 : (update_current_positions ⟨"A", 10, 1, 5⟩ [⟨"A", 1, 5, 10, 0⟩]).1 =
      [⟨"A", 1, 5, 10, 5⟩] := by
    simp [update_current_positions, upsertGo, hr, hr']
  rw [e1, e2]
  simp only [ne_eq, List.cons.injEq, Position.mk.injEq, and_true, not_and]
  intro _ _ _ _
  norm_num

theorem upsertGo_twice (t : TickData) (L : List Position)
    (pr : List Position × ℚ) (h : upsertGo t L = some pr) :
    upsertGo t pr.1 = some (pr.1, t.price) := by
  induction L generalizing pr with
  | nil => simp [upsertGo] at h
  | cons p rest ih =>
    by_cases hp : p.ticker = t.ticker
    · simp only [upsertGo, if_pos hp, Option.some.injEq] at h
      subst h
      simp [upsertGo, hp]
    · simp only [upsertGo, if_neg hp] at h
      rcases hr : upsertGo t rest with _ | r
      · rw [hr] at h; simp at h
      · rw [hr] at h
        simp only [Option.map_some', Option.some.injEq] at h
        subst h
        simp [upsertGo, hp, ih r hr]

/-- C2 (amended): for a ticker already present in the ledger, upserting the
same `{ticker, price}` twice in a row yields the same stored ledger after
each of the two calls, and the second call returns that same price as the
previous price. -/
theorem c2_upsert_idempotent_on_present (t : TickData) (L : List Position)
    (h : ∃ p ∈ L, p.ticker = t.ticker) :
    (update_current_positions t (update_current_positions t L).1).1 =
      (update_current_positions t L).1 ∧
    (update_current_positions t (update_current_positions t L).1).2 = t.price := by
  rcases hgo : upsertGo t L with _ | pr
  · rcases h with ⟨p, hp, hpt⟩
    exact absurd hpt ((upsertGo_eq_none_iff t L).mp hgo p hp)
  · have h2 := upsertGo_twice t L pr hgo
    constructor
    · simp only [update_current_positions, hgo, h2]
    · simp only [update_current_positions, hgo, h2]

/-- Witness for C2 (amended) at the concrete ledger `[{A, 1, 5, 9, 0}]`
and tick `{A, price 10}`. -/
theorem c2_upsert_idempotent_on_present_witness :
    (∃ p ∈ ([⟨"A", 1, 5, 9, 0⟩] : List Position), p.ticker = "A") ∧
    ((update_current_positions ⟨"A", 10, 1, 5⟩
        (update_current_positions ⟨"A", 10, 1, 5⟩ [⟨"A", 1, 5, 9, 0⟩]).1).1 =
      (update_current_positions ⟨"A", 10, 1, 5⟩ [⟨"A", 1, 5, 9, 0⟩]).1 ∧
     (update_current_positions ⟨"A", 10, 1, 5⟩
        (update_current_positions ⟨"A", 10, 1, 5⟩ [⟨"A", 1, 5, 9, 0⟩]).1).2 = 10) :=
  ⟨⟨⟨"A", 1, 5, 9, 0⟩, by simp, rfl⟩,
   c2_upsert_idempotent_on_present ⟨"A", 10, 1, 5⟩ [⟨"A", 1, 5, 9, 0⟩]
     ⟨⟨"A", 1, 5, 9, 0⟩, by simp, rfl⟩⟩

theorem analyzeLoop_spec (S : List SummaryItem) (P : List PayloadPosition)
    (acc : ℚ × ℕ) :
    analyzeLoop S P acc =
      (acc.1 + ((P.filter fun p => (lookupPrice S p.ticker).isSome).map
          fun p => ((lookupPrice S p.ticker).getD 0 - p.purchase_price) * p.quantity).sum,
       acc.2 + (P.filter fun p => (lookupPrice S p.ticker).isSome).length) := by
  induction P generalizing acc with
  | nil => simp [analyzeLoop]
  | cons pos rest ih =>
    rcases h : lookupPrice S pos.ticker with _ | cp
    · simp only [analyzeLoop, h, List.filter_cons, Option.isSome_none,
        Bool.false_eq_true, if_neg, ite_false]
      exact ih acc
    · simp only [analyzeLoop, h, List.filter_cons, Option.isSome_some, ite_true,
        List.map_cons, List.sum_cons, List.length_cons, Option.getD_some]
      rw [ih]
      simp only [Prod.mk.injEq]
      constructor
      · ring
      · omega

/-- C9: `analyze_tick` sums `(current_price - purchase_price) * quantity`
over exactly those positions whose ticker appears in the summary's
ticker-to-price mapping; positions without a quoted price are skipped and
excluded from the positions-evaluated count; in particular positions
`[{A, quantity 10, purchase_price 5}]` with summary
`[{A, current_price 8}]` yield P&L 30 with one position evaluated. -/
theorem c9_pnl_sums_quoted_positions :
    (∀ (P : List PayloadPosition) (S : List SummaryItem),
      analyze_tick P S =
        (((P.filter fun p => (lookupPrice S p.ticker).isSome).map
            fun p => ((lookupPrice S p.ticker).getD 0 - p.purchase_price) * p.quantity).sum,
         (P.filter fun p => (lookupPrice S p.ticker).isSome).length)) ∧
    analyze_tick [⟨"A", 10, 5⟩] [⟨"A", 8⟩] = (30, 1) := by
  constructor
  · intro P S
    rw [analyze_tick, analyzeLoop_spec]
    simp
  · have h : lookupPrice [⟨"A", 8⟩] "A" = some 8 := by
      simp [lookupPrice, List.find?]
    simp only [analyze_tick, analyzeLoop, h]
    norm_num

/-- C10: when the upserted ticker already exists, the ledger after
`update_current_positions` is the old ledger with only the first matching
position replaced, and the replacement changes only `current_price` and
`unrealized_pnl` (the tick's quantity and purchase price are ignored);
every other position, the length and the ordering are unchanged, and the
returned previous price is the matched position's stored price. -/
theorem c10_upsert_frame (t : TickData) (L : List Position)
    (h : t.ticker ∈ L.map Position.ticker) :
    ∃ i : ℕ, ∃ hi : i < L.length,
      (∀ j, ∀ hj : j < L.length, j < i → (L.get ⟨j, hj⟩).ticker ≠ t.ticker) ∧
      (L.get ⟨i, hi⟩).ticker = t.ticker ∧
      (update_current_positions t L).1 =
        L.set i { L.get ⟨i, hi⟩ with
                  current_price := t.price,
                  unrealized_pnl :=
                    round2 ((t.price - (L.get ⟨i, hi⟩).purchase_price) *
                            (L.get ⟨i, hi⟩).quantity) } ∧
      (update_current_positions t L).2 = (L.get ⟨i, hi⟩).current_price ∧
      (update_current_positions t L).1.length = L.length := by
  induction L with
  | nil => simp at h
  | cons p rest ih =>
    by_cases hp : p.ticker = t.ticker
    · refine ⟨0, by simp, ?_, ?_, ?_, ?_, ?_⟩
      · intro j hj hj0
        omega
      · exact hp
      · simp [update_current_positions, upsertGo, if_pos hp]
      · simp [update_current_positions, upsertGo, if_pos hp]
      · simp [update_current_positions, upsertGo, if_pos hp]
    · have hmem : t.ticker ∈ rest.map Position.ticker := by
        rcases List.mem_map.mp h with ⟨q, hq, hq'⟩
        rcases List.mem_cons.mp hq with hq | hq
        · exact absurd (hq ▸ hq') hp
        · exact List.mem_map.mpr ⟨q, hq, hq'⟩
      rcases ih hmem with ⟨i, hi, hguard, hticker, hupd, hret, hlen⟩
      rcases hgo : upsertGo t rest with _ | pr
      · rw [update_current_positions, hgo] at hlen
        simp at hlen
      · have hrest : update_current_positions t rest = pr := by
          rw [update_current_positions, hgo]
        refine ⟨i + 1, by simpa using Nat.succ_lt_succ hi, ?_, ?_, ?_, ?_, ?_⟩
        · intro j hj hji
          match j, hj with
          | 0, _ => exact hp
          | (k + 1), hj =>
            exact hguard k (by simpa using Nat.lt_of_succ_lt_succ hj)
              (Nat.lt_of_succ_lt_succ hji)
        · simpa using hticker
        · have : (update_current_positions t (p :: rest)).1 = p :: pr.1 := by
            simp [update_current_positions, upsertGo, if_neg hp, hgo]
          rw [this, ← hrest, hupd]
          simp
        · have : (update_current_positions t (p :: rest)).2 = pr.2 := by
            simp [update_current_positions, upsertGo, if_neg hp, hgo]
          rw [this, ← hrest, hret]
          simp
        · have : (update_current_positions t (p :: rest)).1 = p :: pr.1 := by
            simp [update_current_positions, upsertGo, if_neg hp, hgo]
          rw [this]
          have h1 : pr.1.length = rest.length := by
            rw [hrest] at hlen
            exact hlen
          simp [h1]

/-- Witness for C10 at the concrete ledger `[{A, 1, 5, 9, 0}]` and tick
`{A, price 10, quantity 7, purchase_price 3}`. -/
theorem c10_upsert_frame_witness :
    ("A" ∈ ([⟨"A", 1, 5, 9, 0⟩] : List Position).map Position.ticker) ∧
    (∃ i : ℕ, ∃ hi : i < ([⟨"A", 1, 5, 9, 0⟩] : List Position).length,
      (∀ j, ∀ hj : j < ([⟨"A", 1, 5, 9, 0⟩] : List Position).length, j < i →
        (([⟨"A", 1, 5, 9, 0⟩] : List Position).get ⟨j, hj⟩).ticker ≠ "A") ∧
      (([⟨"A", 1, 5, 9, 0⟩] : List Position).get ⟨i, hi⟩).ticker = "A" ∧
      (update_current_positions ⟨"A", 10, 7, 3⟩ [⟨"A", 1, 5, 9, 0⟩]).1 =
        ([⟨"A", 1, 5, 9, 0⟩] : List Position).set i
          { ([⟨"A", 1, 5, 9, 0⟩] : List Position).get ⟨i, hi⟩ with
            current_price := 10,
            unrealized_pnl :=
              round2 ((10 - (([⟨"A", 1, 5, 9, 0⟩] : List Position).get ⟨i, hi⟩).purchase_price) *
                      (([⟨"A", 1, 5, 9, 0⟩] : List Position).get ⟨i, hi⟩).quantity) } ∧
      (update_current_positions ⟨"A", 10, 7, 3⟩ [⟨"A", 1, 5, 9, 0⟩]).2 =
        (([⟨"A", 1, 5, 9, 0⟩] : List Position).get ⟨i, hi⟩).current_price ∧
      (update_current_positions ⟨"A", 10, 7, 3⟩ [⟨"A", 1, 5, 9, 0⟩]).1.length =
        ([⟨"A", 1, 5, 9, 0⟩] : List Position).length) :=
  ⟨by simp, c10_upsert_frame ⟨"A", 10, 7, 3⟩ [⟨"A", 1, 5, 9, 0⟩] (by simp)⟩

theorem insertByDay_head_le (x y : HistoryRow) (ys : List HistoryRow)
    (h : x.day ≤ y.day) : insertByDay x (y :: ys) = x :: y :: ys := by
  rw [insertByDay, if_neg (by omega)]

theorem sortByDay_sorted_id (rows : List HistoryRow)
    (h : rows.Chain' (fun a b => a.day ≤ b.day)) : sortByDay rows = rows := by
  induction rows with
  | nil => rfl
  | cons x xs ih =>
    match xs, h with
    | [], _ => rfl
    | y :: ys, h =>
      rcases List.chain'_cons.mp h with ⟨hxy, htail⟩
      rw [sortByDay, ih htail, insertByDay_head_le x y ys hxy]

/-- C7: on a history already sorted by day ascending, the rule engine
decides exactly as the spec's moving-average policy describes — HOLD below
3 points, otherwise BUY/SELL/HOLD by comparing the SMA of the last 3
prices with the SMA of the last 5 (or of all prices when fewer than 5
exist) — and in particular prices 10..14 give BUY, 14..10 give SELL, and
a 2-point history gives HOLD. -/
theorem c7_moving_average_rule :
    (∀ (tk : String) (rows : List HistoryRow),
       rows.Chain' (fun a b => a.day ≤ b.day) →
       decide_from_history tk rows =
         specMovingAverageDecision (rows.map (fun r => r.price))) ∧
    decide_from_history "T" risingHistory = "BUY" ∧
    decide_from_history "T" fallingHistory = "SELL" ∧
    decide_from_history "T" shortHistory = "HOLD" := by
  refine ⟨?_, ?_, ?_, ?_⟩
  · intro tk rows hsorted
    simp only [decide_from_history, sortByDay_sorted_id rows hsorted,
      specMovingAverageDecision]
    set ps := rows.map (fun r => r.price) with hps
    by_cases h3 : ps.length < 3
    · simp [h3]
    · have e3 : _sma ps 3 = some ((ps.drop (ps.length - 3)).sum / ((3 : ℕ) : ℚ)) := by
        rw [_sma, if_neg]
        push_neg
        exact ⟨by norm_num, by omega⟩
      by_cases h5 : 5 ≤ ps.length
      · have e5 : _sma ps 5 = some ((ps.drop (ps.length - 5)).sum / ((5 : ℕ) : ℚ)) := by
          rw [_sma, if_neg]
          push_neg
          exact ⟨by norm_num, by omega⟩
        simp only [if_neg h3, if_pos h5, e3, e5, Nat.cast_ofNat, gt_iff_lt]
      · have elen : _sma ps ps.length = some (ps.sum / (ps.length : ℚ)) := by
          rw [_sma, if_neg, Nat.sub_self, List.drop_zero]
          push_neg
          exact ⟨by omega, by omega⟩
        simp only [if_neg h3, if_neg h5, e3, elen, Nat.cast_ofNat, gt_iff_lt]
  · norm_num [decide_from_history, sortByDay, insertByDay, _sma, risingHistory]
  · norm_num [decide_from_history, sortByDay, insertByDay, _sma, fallingHistory]
  · norm_num [decide_from_history, sortByDay, insertByDay, _sma, shortHistory]

/-- Witness for C7 at the concrete sorted rising history. -/
theorem c7_moving_average_rule_witness :
    risingHistory.Chain' (fun a b => a.day ≤ b.day) ∧
    decide_from_history "T" risingHistory =
      specMovingAverageDecision (risingHistory.map (fun r => r.price)) :=
  ⟨by norm_num [risingHistory, List.chain'_cons],
   c7_moving_average_rule.1 "T" risingHistory
     (by norm_num [risingHistory, List.chain'_cons])⟩

/-- C8: with a non-`None` previous price, the direction strategy returns
`"SELL"` and appends a log record carrying the full given quantity exactly
when the current price exceeds the previous one; otherwise — current price
below *or equal to* the previous, treated identically — it returns
`"STAY"` and appends a `TICK_UPDATE` record with no quantity field. -/
theorem c8_direction_strategy (t : TickData) (prev : ℚ) (h : List LogRecord) :
    (prev < t.price →
      execute_trading_strategy t (some prev) h =
        ("SELL", h ++ [⟨t.ticker, "SELL", round2 t.price,
                        "Price increased - sell signal", some t.quantity⟩])) ∧
    (¬ prev < t.price →
      execute_trading_strategy t (some prev) h =
        ("STAY", h ++ [⟨t.ticker, "TICK_UPDATE", round2 t.price,
                        "Price decreased - stay", none⟩])) := by
  constructor <;> intro hc <;>
    simp [execute_trading_strategy, log_transaction, hc]

/-- Witness for C8: price 12 against previous 10 sells with quantity 3;
price 9 against previous 12 stays with a quantity-free TICK_UPDATE
record. -/
theorem c8_direction_strategy_witness :
    ((10 : ℚ) < 12 ∧
      execute_trading_strategy ⟨"A", 12, 3, 5⟩ (some 10) [] =
        ("SELL", [⟨"A", "SELL", round2 12, "Price increased - sell signal",
                   some 3⟩])) ∧
    (¬ (12 : ℚ) < 9 ∧
      execute_trading_strategy ⟨"A", 9, 3, 5⟩ (some 12) [] =
        ("STAY", [⟨"A", "TICK_UPDATE", round2 9, "Price decreased - stay",
                   none⟩])) :=
  ⟨⟨by norm_num, (c8_direction_strategy ⟨"A", 12, 3, 5⟩ 10 []).1 (by norm_num)⟩,
   ⟨by norm_num, (c8_direction_strategy ⟨"A", 9, 3, 5⟩ 12 []).2 (by norm_num)⟩⟩

theorem jget_some_truthy (v : J) (k : String) (x : J)
    (h : jget v k = some x) : truthy v = true := by
  match v with
  | J.obj fs =>
    match fs with
    | [] => simp [jget] at h
    | a :: l => simp [truthy]
  | J.s s => simp [jget] at h
  | J.i n => simp [jget] at h
  | J.f q => simp [jget] at h
  | J.b b => simp [jget] at h
  | J.null => simp [jget] at h
  | J.arr xs => simp [jget] at h

/-- C3 (code bug evaluation): a payload with valid non-empty `Positions`
and `Market_Summary` lists and an *empty* `market_history` list passes
`validate_tick_payload`, yet the tick handler rejects it with HTTP 400 and
the message "Missing market_history field", because the handler tests the
field with Python truthiness and an empty list is falsy. -/
theorem c3_empty_history_validated_but_rejected :
    validate_tick_payload exPayloadEmptyHistory = (true, "") ∧
    (tick exPayloadEmptyHistory "t1" [] (J.obj []) []).response =
      TickResponse.failure 400 "Missing market_history field" :=
  ⟨rfl, rfl⟩

/-- C4 counterexample: on a fully valid payload, when the recommendation
provider returns the empty list, the single audit entry written for the
tick records the error object
`{"error": "No recommendations received from AI"}` — an error *is*
recorded for that tick. -/
theorem c4_counterexample :
    ((tick exPayload "t1" [] (J.obj []) []).newLog.map
        (fun e => e.mothership_response)) =
      [J.obj [("error", J.s "No recommendations received from AI")]] := rfl
/-- C4 (amended): when the recommendation provider returns an empty list
on an otherwise well-formed tick, the pipeline still completes with a 200
success response carrying zero decisions and the local positions
unchanged, but the audit entry's `mothership_response` records the error
string "No recommendations received from AI" (and the reconcile call is
never made). -/
theorem c4_empty_recommendation_completes (td : J) (tid : String) (mres : J)
    (log0 : List StrategyApi.AppLogEntry) (day : Option J) (pnl : ℚ) (ps : List J)
    (hpos : jget td "Positions" = some (J.arr ps))
    (hps : ps ≠ [])
    (hms : truthyO (jget td "Market_Summary") = true)
    (hmh : truthyO (jget td "market_history") = true)
    (hday : extractDay ((jget td "market_history").getD J.null) = Except.ok day)
    (hpnl : calculate_unrealized_pnl_j (J.arr ps)
        ((jget td "Market_Summary").getD J.null) = Except.ok pnl) :
    tick td tid [] mres log0 =
      ⟨TickResponse.success pnl ps.length day [], [J.arr ps],
       log0 ++ [⟨tid, day, [], J.arr ps, J.arr ps, pnl,
                 J.obj [("error", J.s "No recommendations received from AI")]⟩]⟩ := by
  have htr : truthy td = true := jget_some_truthy td "Positions" _ hpos
  have hps' : ps.isEmpty = false := by
    cases ps with
    | nil => exact absurd rfl hps
    | cons a l => rfl
  have hpt : truthyO (some (J.arr ps)) = true := by
    simp [truthyO, truthy, hps']
  match td, hpos with
  | J.obj fs, hpos =>
    simp [tick, htr, hpos, hpt, hms, hmh, hday, hpnl, process_tick_with_ai,
      hasKey]

/-- C5: whenever the external reconcile call returns an error (any
response carrying an `error` key), the tick completes with a 200 success
response, the single `save_positions` write is the pre-reconciliation one,
and the audit entry has `positions_after` equal to `positions_before` and
records the mothership's error response verbatim; no retry happens and
nothing is raised to the caller. -/
theorem c5_reconcile_error_keeps_positions (td : J) (tid : String)
    (aiRecs : List J) (mres : J) (log0 : List StrategyApi.AppLogEntry)
    (day : Option J) (pnl : ℚ) (ps : List J)
    (hrecs : aiRecs ≠ [])
    (herr : hasKey mres "error" = true)
    (hpos : jget td "Positions" = some (J.arr ps))
    (hps : ps ≠ [])
    (hms : truthyO (jget td "Market_Summary") = true)
    (hmh : truthyO (jget td "market_history") = true)
    (hday : extractDay ((jget td "market_history").getD J.null) = Except.ok day)
    (hpnl : calculate_unrealized_pnl_j (J.arr ps)
        ((jget td "Market_Summary").getD J.null) = Except.ok pnl) :
    tick td tid aiRecs mres log0 =
      ⟨TickResponse.success pnl ps.length day aiRecs, [J.arr ps],
       log0 ++ [⟨tid, day, aiRecs, J.arr ps, J.arr ps, pnl, mres⟩]⟩ := by
  have htr : truthy td = true := jget_some_truthy td "Positions" _ hpos
  have hps' : ps.isEmpty = false := by
    cases ps with
    | nil => exact absurd rfl hps
    | cons a l => rfl
  have hrecs' : aiRecs.isEmpty = false := by
    cases aiRecs with
    | nil => exact absurd rfl hrecs
    | cons a l => rfl
  have hpt : truthyO (some (J.arr ps)) = true := by
    simp [truthyO, truthy, hps']
  match td, hpos with
  | J.obj fs, hpos =>
    simp [tick, htr, hpos, hpt, hms, hmh, hday, hpnl, process_tick_with_ai,
      hrecs', herr]

theorem exPnl :
    calculate_unrealized_pnl_j (J.arr [exPos]) (J.arr [exSum]) =
      Except.ok 30 := by
  have h : calculate_unrealized_pnl_j (J.arr [exPos]) (J.arr [exSum]) =
      Except.ok ((0 : ℚ) + ((8 : ℚ) - 5) * (((10 : ℤ) : ℚ))) := rfl
  rw [h]
  norm_num

/-- Witness for C4 (amended) at the concrete valid payload with an empty
recommendation list. -/
theorem c4_empty_recommendation_completes_witness :
    jget exPayload "Positions" = some (J.arr [exPos]) ∧
    tick exPayload "t1" [] (J.obj []) [] =
      ⟨TickResponse.success 30 1 (some (J.i 1)) [], [J.arr [exPos]],
       [⟨"t1", some (J.i 1), [], J.arr [exPos], J.arr [exPos], 30,
         J.obj [("error", J.s "No recommendations received from AI")]⟩]⟩ :=
  ⟨rfl,
   c4_empty_recommendation_completes exPayload "t1" (J.obj []) [] (some (J.i 1))
     30 [exPos] rfl (by simp) rfl rfl rfl exPnl⟩

/-- Witness for C5 at the concrete valid payload, one recommendation and a
mothership response carrying an error string. -/
theorem c5_reconcile_error_keeps_positions_witness :
    hasKey (J.obj [("error", J.s "connection refused")]) "error" = true ∧
    tick exPayload "t1" [J.s "SELL A"] (J.obj [("error", J.s "connection refused")]) [] =
      ⟨TickResponse.success 30 1 (some (J.i 1)) [J.s "SELL A"], [J.arr [exPos]],
       [⟨"t1", some (J.i 1), [J.s "SELL A"], J.arr [exPos], J.arr [exPos], 30,
         J.obj [("error", J.s "connection refused")]⟩]⟩ :=
  ⟨rfl,
   c5_reconcile_error_keeps_positions exPayload "t1" [J.s "SELL A"]
     (J.obj [("error", J.s "connection refused")]) [] (some (J.i 1)) 30 [exPos]
     (by simp) rfl rfl (by simp) rfl rfl rfl exPnl⟩
